/-
Verification of the Interest-Rate-Models repository (Vasicek and Ho-Lee
short-rate models: path simulation and least-squares calibration).

Shallow embedding conventions:
* Python floats are modelled as exact rationals (ℚ).
* The process-wide random normal generator `np.random.normal` is modelled as
  an explicit stream `g : ℕ → ℚ` of standard-normal draws; the call
  `np.random.normal(size=(n_steps, n_paths))` consumes the stream in
  row-major order, so draw (t, p) is `g (t * nPaths + p)`.
* `np.sqrt` is modelled as an abstract function `sqrtFn : ℚ → ℚ` passed to
  `simulate` (the floating-point square root of a rational is not in general
  a rational; the claims about `simulate` are structural in this scalar).
* Fallible Python behaviour is modelled with `Except`: `T / dt` with
  `dt == 0` raises ZeroDivisionError; `np.zeros` with a negative dimension
  raises ValueError; `paths[0] = r0` on a zero-row array raises IndexError.
* Python's `int(x)` on a float truncates toward zero: `pyTrunc`.
-/
import Mathlib

/-- Errors that the Python code in `src/models.py` can raise. -/
inductive PyError where
  /-- `T / dt` with `dt == 0` (Python scalar division). -/
  | zeroDivisionError
  /-- `np.zeros((n_steps + 1, n_paths))` with `n_steps + 1 < 0`. -/
  | valueError
  /-- `paths[0] = self.r0` when the array has zero rows (`n_steps + 1 == 0`). -/
  | indexError
deriving DecidableEq, Repr

/-- Python `int(x)` applied to a float: truncation toward zero. -/
def pyTrunc (q : ℚ) : ℤ :=
  if 0 ≤ q then ⌊q⌋ else ⌈q⌉

/-- `VasicekModel.__init__` from `src/models.py`: stores `a`, `b`, `sigma`,
`r0` and the extra `scheme` argument (default `"euler"`). -/
structure VasicekModel where
  a : ℚ
  b : ℚ
  sigma : ℚ
  r0 : ℚ
  scheme : String := "euler"

/-- `HoLeeModel.__init__` from `src/models.py`: stores `theta`, `sigma`,
`r0` and the extra `scheme` argument (default `"euler"`). -/
structure HoLeeModel where
  theta : ℚ
  sigma : ℚ
  r0 : ℚ
  scheme : String := "euler"

/-- The 2-D numpy array returned by `simulate`: a shape and an entry
function (entries are meaningful for `t < rows`, `p < cols`). -/
structure PathMatrix where
  rows : ℕ
  cols : ℕ
  entry : ℕ → ℕ → ℚ

/-- The Brownian-increment array `dW = np.sqrt(dt) * np.random.normal(size =
(n_steps, n_paths))` of `src/models.py`, drawn up front before the stepping
loop: entry `(t, p)` scales the `(t * nPaths + p)`-th stream draw by the
computed `np.sqrt(dt)` scalar. -/
def dWmat (sqrtDt : ℚ) (nPaths : ℕ) (g : ℕ → ℚ) (t p : ℕ) : ℚ :=
  sqrtDt * g (t * nPaths + p)

/-- The stepping loop of `VasicekModel.simulate`:
`paths[t+1] = paths[t] + a*(b - paths[t])*dt + sigma*dW[t]`, starting from
`paths[0] = r0`. -/
def vasicekPath (m : VasicekModel) (dt : ℚ) (dW : ℕ → ℕ → ℚ) : ℕ → ℕ → ℚ
  | 0, _ => m.r0
  | t + 1, p =>
    let prev := vasicekPath m dt dW t p
    let drift := m.a * (m.b - prev) * dt
    let diffusion := m.sigma * dW t p
    prev + drift + diffusion

/-- The stepping loop of `HoLeeModel.simulate`:
`paths[t+1] = paths[t] + theta*dt + sigma*dW[t]`, starting from
`paths[0] = r0`. -/
def holeePath (m : HoLeeModel) (dt : ℚ) (dW : ℕ → ℕ → ℚ) : ℕ → ℕ → ℚ
  | 0, _ => m.r0
  | t + 1, p =>
    let prev := holeePath m dt dW t p
    let drift := m.theta * dt
    let diffusion := m.sigma * dW t p
    prev + drift + diffusion

/-- `VasicekModel.simulate(T, dt, n_paths)` from `src/models.py`.
`sqrtFn` models `np.sqrt` and `g` models the ambient normal stream.
Order of effects in the source: `n_steps = int(T / dt)` (ZeroDivisionError
when `dt == 0`), `paths = np.zeros((n_steps + 1, n_paths))` (ValueError when
`n_steps + 1 < 0`), `paths[0] = self.r0` (IndexError when `n_steps + 1 == 0`),
then `dW` is drawn and the stepping loop runs. -/
def VasicekModel.simulate (sqrtFn : ℚ → ℚ) (m : VasicekModel) (T dt : ℚ)
    (nPaths : ℕ) (g : ℕ → ℚ) : Except PyError PathMatrix :=
  if dt = 0 then .error .zeroDivisionError
  else
    let nSteps : ℤ := pyTrunc (T / dt)
    if nSteps + 1 < 0 then .error .valueError
    else if nSteps + 1 = 0 then .error .indexError
    else .ok ⟨(nSteps + 1).toNat, nPaths, vasicekPath m dt (dWmat (sqrtFn dt) nPaths g)⟩

/-- `HoLeeModel.simulate(T, dt, n_paths)` from `src/models.py`; same shape
and failure structure as the Vasicek simulator, with the Ho-Lee drift. -/
def HoLeeModel.simulate (sqrtFn : ℚ → ℚ) (m : HoLeeModel) (T dt : ℚ)
    (nPaths : ℕ) (g : ℕ → ℚ) : Except PyError PathMatrix :=
  if dt = 0 then .error .zeroDivisionError
  else
    let nSteps : ℤ := pyTrunc (T / dt)
    if nSteps + 1 < 0 then .error .valueError
    else if nSteps + 1 = 0 then .error .indexError
    else .ok ⟨(nSteps + 1).toNat, nPaths, holeePath m dt (dWmat (sqrtFn dt) nPaths g)⟩

/-- The residual denominator `sigma + 1e-6` shared by both calibration
residual functions in `src/calibration.py`. -/
def resDenom (sigma : ℚ) : ℚ :=
  sigma + 1e-6

/-- `vasicek_calibration(params, r, dt)` from `src/calibration.py`.
Unpacking `a, b, sigma = params` fails (ValueError) unless `params` has
exactly three entries, modelled by `Option`.  `r[:-1]` is `dropLast`,
`r[1:]` is `tail`, and the numpy elementwise arithmetic is `zipWith`. -/
def vasicek_calibration (params : List ℚ) (r : List ℚ) (dt : ℚ) :
    Option (List ℚ) :=
  match params with
  | [a, b, sigma] =>
    let r_lag := r.dropLast
    let r_next := r.tail
    some (List.zipWith
      (fun rl rn => (rn - rl - a * (b - rl) * dt) / resDenom sigma) r_lag r_next)
  | _ => none

/-- `holee_calibration(params, r, dt)` from `src/calibration.py`. -/
def holee_calibration (params : List ℚ) (r : List ℚ) (dt : ℚ) :
    Option (List ℚ) :=
  match params with
  | [theta, sigma] =>
    let r_lag := r.dropLast
    let r_next := r.tail
    some (List.zipWith
      (fun rl rn => (rn - rl - theta * dt) / resDenom sigma) r_lag r_next)
  | _ => none

/-- `np.mean` on a 1-D array: sum divided by length. -/
def npMean (r : List ℚ) : ℚ :=
  r.sum / r.length

/-- Abstract model of `scipy.optimize.least_squares`: takes the residual
function (already closed over `args`) and the initial parameter vector, and
returns `result.x`. -/
def LSSolver : Type :=
  (List ℚ → Option (List ℚ)) → List ℚ → List ℚ

/-- The documented contract of `scipy.optimize.least_squares` that the
calibration claims rely on: `result.x` has the same length as the initial
guess `x0`. -/
def SolverPreservesLength (ls : LSSolver) : Prop :=
  ∀ f x0, (ls f x0).length = x0.length

/-- `calibrate_vasicek(rate_data, dt)` from `src/calibration.py`:
`initial_params = [0.1, np.mean(rate_data), 0.01]`, then the solver runs
`vasicek_calibration` with `args = (rate_data, dt)`. -/
def calibrate_vasicek (ls : LSSolver) (rate_data : List ℚ) (dt : ℚ) : List ℚ :=
  let initial_params := [0.1, npMean rate_data, 0.01]
  ls (fun params => vasicek_calibration params rate_data dt) initial_params

/-- `calibrate_holee(rate_data, dt)` from `src/calibration.py`:
`initial_params = [0.001, 0.01]`, then the solver runs `holee_calibration`
with `args = (rate_data, dt)`. -/
def calibrate_holee (ls : LSSolver) (rate_data : List ℚ) (dt : ℚ) : List ℚ :=
  let initial_params := [0.001, 0.01]
  ls (fun params => holee_calibration params rate_data dt) initial_params

/-- Observational equality of two path matrices: same shape and the same
entries at every in-range position (a `PathMatrix` is meaningful only on its
in-range entries, so this is "bit-identical output" in the embedding). -/
def PathMatrix.ObsEq (M N : PathMatrix) : Prop :=
  M.rows = N.rows ∧ M.cols = N.cols ∧
    ∀ t < M.rows, ∀ p < M.cols, M.entry t p = N.entry t p

/-! ### Helper lemmas -/

/-- On the positive-horizon branch (`0 < dt`, `0 ≤ T`), `simulate` reaches
the stepping loop and returns the matrix of `⌊T/dt⌋ + 1` rows. -/
theorem vasicek_simulate_ok (sqrtFn : ℚ → ℚ) (m : VasicekModel)
    (T dt : ℚ) (nPaths : ℕ) (g : ℕ → ℚ) (hdt : 0 < dt) (hT : 0 ≤ T) :
    m.simulate sqrtFn T dt nPaths g =
      .ok ⟨⌊T / dt⌋.toNat + 1, nPaths,
           vasicekPath m dt (dWmat (sqrtFn dt) nPaths g)⟩ := by
  have hq : (0 : ℚ) ≤ T / dt := div_nonneg hT hdt.le
  have hfl : 0 ≤ ⌊T / dt⌋ := Int.floor_nonneg.mpr hq
  have hp : pyTrunc (T / dt) = ⌊T / dt⌋ := by unfold pyTrunc; exact if_pos hq
  have htn : (⌊T / dt⌋ + 1).toNat = ⌊T / dt⌋.toNat + 1 := by omega
  simp only [VasicekModel.simulate, if_neg hdt.ne', hp,
    if_neg (show ¬(⌊T / dt⌋ + 1 < 0) by omega),
    if_neg (show ¬(⌊T / dt⌋ + 1 = 0) by omega), htn]

/-- Ho-Lee version of `vasicek_simulate_ok`. -/
theorem holee_simulate_ok (sqrtFn : ℚ → ℚ) (m : HoLeeModel)
    (T dt : ℚ) (nPaths : ℕ) (g : ℕ → ℚ) (hdt : 0 < dt) (hT : 0 ≤ T) :
    m.simulate sqrtFn T dt nPaths g =
      .ok ⟨⌊T / dt⌋.toNat + 1, nPaths,
           holeePath m dt (dWmat (sqrtFn dt) nPaths g)⟩ := by
  have hq : (0 : ℚ) ≤ T / dt := div_nonneg hT hdt.le
  have hfl : 0 ≤ ⌊T / dt⌋ := Int.floor_nonneg.mpr hq
  have hp : pyTrunc (T / dt) = ⌊T / dt⌋ := by unfold pyTrunc; exact if_pos hq
  have htn : (⌊T / dt⌋ + 1).toNat = ⌊T / dt⌋.toNat + 1 := by omega
  simp only [HoLeeModel.simulate, if_neg hdt.ne', hp,
    if_neg (show ¬(⌊T / dt⌋ + 1 < 0) by omega),
    if_neg (show ¬(⌊T / dt⌋ + 1 = 0) by omega), htn]

/-- Example Vasicek model from the repository's tests. -/
def mvEx : VasicekModel := ⟨0.1, 0.05, 0.02, 0.03, "euler"⟩

/-- Example Ho-Lee model from the repository's tests. -/
def mhEx : HoLeeModel := ⟨0.001, 0.02, 0.03, "euler"⟩

/-- A concrete normal stream for witnesses. -/
def zeroStream : ℕ → ℚ := fun _ => 0

/-! ### C3: output shape -/

/-- C3: for all positive `T`, `dt` and positive `n_paths`, `simulate` (both
models) returns a matrix of shape exactly `(⌊T/dt⌋ + 1, n_paths)`. -/
theorem simulate_shape (sqrtFn : ℚ → ℚ) (mv : VasicekModel) (mh : HoLeeModel)
    (T dt : ℚ) (nPaths : ℕ) (g : ℕ → ℚ)
    (hT : 0 < T) (hdt : 0 < dt) (_hn : 0 < nPaths) :
    (∃ M, mv.simulate sqrtFn T dt nPaths g = .ok M ∧
       M.rows = ⌊T / dt⌋.toNat + 1 ∧ M.cols = nPaths) ∧
    (∃ M, mh.simulate sqrtFn T dt nPaths g = .ok M ∧
       M.rows = ⌊T / dt⌋.toNat + 1 ∧ M.cols = nPaths) :=
  ⟨⟨_, vasicek_simulate_ok sqrtFn mv T dt nPaths g hdt hT.le, rfl, rfl⟩,
   ⟨_, holee_simulate_ok sqrtFn mh T dt nPaths g hdt hT.le, rfl, rfl⟩⟩

/-- Witness for C3 at the repository's own test inputs
(`T = 1`, `dt = 1/252`, `n_paths = 5`): shape `(253, 5)`. -/
theorem simulate_shape_witness :
    (∃ M, mvEx.simulate id 1 (1/252) 5 zeroStream = .ok M ∧
       M.rows = ⌊(1 : ℚ) / (1/252)⌋.toNat + 1 ∧ M.cols = 5) ∧
    (∃ M, mhEx.simulate id 1 (1/252) 5 zeroStream = .ok M ∧
       M.rows = ⌊(1 : ℚ) / (1/252)⌋.toNat + 1 ∧ M.cols = 5) :=
  simulate_shape id mvEx mhEx 1 (1/252) 5 zeroStream
    (by norm_num) (by norm_num) (by norm_num)

/-! ### C4: row 0 is `r0` exactly -/

/-- C4: for every model record and positive `T`, `dt`, `n_paths`, row 0 of
the returned matrix equals the model's `r0` in every column, exactly. -/
theorem simulate_row0 (sqrtFn : ℚ → ℚ) (mv : VasicekModel) (mh : HoLeeModel)
    (T dt : ℚ) (nPaths : ℕ) (g : ℕ → ℚ)
    (hT : 0 < T) (hdt : 0 < dt) (_hn : 0 < nPaths) :
    (∃ M, mv.simulate sqrtFn T dt nPaths g = .ok M ∧
       ∀ p < M.cols, M.entry 0 p = mv.r0) ∧
    (∃ M, mh.simulate sqrtFn T dt nPaths g = .ok M ∧
       ∀ p < M.cols, M.entry 0 p = mh.r0) :=
  ⟨⟨_, vasicek_simulate_ok sqrtFn mv T dt nPaths g hdt hT.le, fun _ _ => rfl⟩,
   ⟨_, holee_simulate_ok sqrtFn mh T dt nPaths g hdt hT.le, fun _ _ => rfl⟩⟩

/-- Witness for C4 at the repository's own test inputs. -/
theorem simulate_row0_witness :
    (∃ M, mvEx.simulate id 1 (1/252) 5 zeroStream = .ok M ∧
       ∀ p < M.cols, M.entry 0 p = mvEx.r0) ∧
    (∃ M, mhEx.simulate id 1 (1/252) 5 zeroStream = .ok M ∧
       ∀ p < M.cols, M.entry 0 p = mhEx.r0) :=
  simulate_row0 id mvEx mhEx 1 (1/252) 5 zeroStream
    (by norm_num) (by norm_num) (by norm_num)

/-! ### C1: Euler-Maruyama recurrence -/

/-- C1: for every model record, positive `T`, `dt`, `n_paths`, every step
`t` with `t + 1 < rows` and every in-range path `p`, the simulated value
satisfies the Euler-Maruyama recurrence, with the Brownian increment
`dW[t]` being the `np.sqrt(dt)` scalar times the `(t*n_paths + p)`-th draw
of the up-front normal array (the stream index depends only on `(t, p)`,
not on the stepping order). -/
theorem simulate_euler_recurrence (sqrtFn : ℚ → ℚ) (mv : VasicekModel)
    (mh : HoLeeModel) (T dt : ℚ) (nPaths : ℕ) (g : ℕ → ℚ)
    (hT : 0 < T) (hdt : 0 < dt) (_hn : 0 < nPaths) :
    (∃ M, mv.simulate sqrtFn T dt nPaths g = .ok M ∧
       ∀ t, t + 1 < M.rows → ∀ p < M.cols,
         M.entry (t + 1) p =
           M.entry t p + mv.a * (mv.b - M.entry t p) * dt
             + mv.sigma * (sqrtFn dt * g (t * nPaths + p))) ∧
    (∃ M, mh.simulate sqrtFn T dt nPaths g = .ok M ∧
       ∀ t, t + 1 < M.rows → ∀ p < M.cols,
         M.entry (t + 1) p =
           M.entry t p + mh.theta * dt
             + mh.sigma * (sqrtFn dt * g (t * nPaths + p))) := by
  refine ⟨⟨_, vasicek_simulate_ok sqrtFn mv T dt nPaths g hdt hT.le, ?_⟩,
          ⟨_, holee_simulate_ok sqrtFn mh T dt nPaths g hdt hT.le, ?_⟩⟩ <;>
    intro t _ p _ <;> rfl

/-- Witness for C1 at the repository's own test inputs. -/
theorem simulate_euler_recurrence_witness :
    (∃ M, mvEx.simulate id 1 (1/252) 5 zeroStream = .ok M ∧
       ∀ t, t + 1 < M.rows → ∀ p < M.cols,
         M.entry (t + 1) p =
           M.entry t p + mvEx.a * (mvEx.b - M.entry t p) * (1/252)
             + mvEx.sigma * (id (1/252 : ℚ) * zeroStream (t * 5 + p))) ∧
    (∃ M, mhEx.simulate id 1 (1/252) 5 zeroStream = .ok M ∧
       ∀ t, t + 1 < M.rows → ∀ p < M.cols,
         M.entry (t + 1) p =
           M.entry t p + mhEx.theta * (1/252)
             + mhEx.sigma * (id (1/252 : ℚ) * zeroStream (t * 5 + p))) :=
  simulate_euler_recurrence id mvEx mhEx 1 (1/252) 5 zeroStream
    (by norm_num) (by norm_num) (by norm_num)

/-! ### C5: zero-volatility behaviour -/

/-- C5 counterexample: with `a = 3`, `b = 0`, `sigma = 0`, `r0 = 1`,
`dt = 1` (so `a*dt = 3 > 2`), the first Vasicek step overshoots `b` and
moves away from it: `|r[1] - b| = 2 > 1 = |r[0] - b|`.  So with `sigma = 0`
Vasicek paths do not converge monotonically toward `b` for arbitrary
parameter records. -/
theorem zero_vol_cex :
    ∃ M, VasicekModel.simulate id ⟨3, 0, 0, 1, "euler"⟩ 2 1 1 zeroStream
        = .ok M ∧
      ¬(|M.entry 1 0 - (0 : ℚ)| ≤ |M.entry 0 0 - (0 : ℚ)|) :=
  ⟨_, vasicek_simulate_ok id ⟨3, 0, 0, 1, "euler"⟩ 2 1 1 zeroStream
      (by norm_num) (by norm_num),
    by
      show ¬(|vasicekPath ⟨3, 0, 0, 1, "euler"⟩ 1 (dWmat (id 1) 1 zeroStream)
              1 0 - (0 : ℚ)|
          ≤ |vasicekPath ⟨3, 0, 0, 1, "euler"⟩ 1 (dWmat (id 1) 1 zeroStream)
              0 0 - (0 : ℚ)|)
      norm_num [vasicekPath, dWmat, zeroStream]⟩

/-- C5 amended: with `sigma = 0` and the additional stability hypothesis
`0 ≤ a*dt ≤ 2`, every Vasicek path satisfies `|r[t+1] - b| ≤ |r[t] - b|`
at every step; with `sigma = 0` every Ho-Lee path is the deterministic
linear ramp `r[k] = r0 + theta*(k*dt)`. -/
theorem zero_vol_paths (sqrtFn : ℚ → ℚ) (mv : VasicekModel) (mh : HoLeeModel)
    (T dt : ℚ) (nPaths : ℕ) (g : ℕ → ℚ)
    (hT : 0 < T) (hdt : 0 < dt) (_hn : 0 < nPaths)
    (hsv : mv.sigma = 0) (hsh : mh.sigma = 0)
    (ha0 : 0 ≤ mv.a * dt) (ha2 : mv.a * dt ≤ 2) :
    (∃ M, mv.simulate sqrtFn T dt nPaths g = .ok M ∧
       ∀ t, t + 1 < M.rows → ∀ p < M.cols,
         |M.entry (t + 1) p - mv.b| ≤ |M.entry t p - mv.b|) ∧
    (∃ M, mh.simulate sqrtFn T dt nPaths g = .ok M ∧
       ∀ t < M.rows, ∀ p < M.cols,
         M.entry t p = mh.r0 + mh.theta * (t * dt)) := by
  have key : ∀ x : ℚ, |x + mv.a * (mv.b - x) * dt - mv.b| ≤ |x - mv.b| := by
    intro x
    have h1 : x + mv.a * (mv.b - x) * dt - mv.b
        = (x - mv.b) * (1 - mv.a * dt) := by ring
    have h2 : |1 - mv.a * dt| ≤ 1 := abs_le.mpr ⟨by linarith, by linarith⟩
    calc |x + mv.a * (mv.b - x) * dt - mv.b|
        = |x - mv.b| * |1 - mv.a * dt| := by rw [h1, abs_mul]
      _ ≤ |x - mv.b| * 1 := mul_le_mul_of_nonneg_left h2 (abs_nonneg _)
      _ = |x - mv.b| := mul_one _
  have ramp : ∀ t p, holeePath mh dt (dWmat (sqrtFn dt) nPaths g) t p
      = mh.r0 + mh.theta * (t * dt) := by
    intro t p
    induction t with
    | zero => simp [holeePath]
    | succ n ih =>
      show holeePath mh dt (dWmat (sqrtFn dt) nPaths g) n p + mh.theta * dt
          + mh.sigma * dWmat (sqrtFn dt) nPaths g n p
        = mh.r0 + mh.theta * ((n + 1 : ℕ) * dt)
      rw [ih, hsh]
      push_cast
      ring
  refine ⟨⟨_, vasicek_simulate_ok sqrtFn mv T dt nPaths g hdt hT.le, ?_⟩,
          ⟨_, holee_simulate_ok sqrtFn mh T dt nPaths g hdt hT.le, ?_⟩⟩
  · intro t _ p _
    have hstep : vasicekPath mv dt (dWmat (sqrtFn dt) nPaths g) (t + 1) p
        = vasicekPath mv dt (dWmat (sqrtFn dt) nPaths g) t p
          + mv.a * (mv.b - vasicekPath mv dt (dWmat (sqrtFn dt) nPaths g) t p)
            * dt := by
      show vasicekPath mv dt (dWmat (sqrtFn dt) nPaths g) t p
          + mv.a * (mv.b - vasicekPath mv dt (dWmat (sqrtFn dt) nPaths g) t p)
            * dt
          + mv.sigma * dWmat (sqrtFn dt) nPaths g t p = _
      rw [hsv]; ring
    show |vasicekPath mv dt (dWmat (sqrtFn dt) nPaths g) (t + 1) p - mv.b|
        ≤ |vasicekPath mv dt (dWmat (sqrtFn dt) nPaths g) t p - mv.b|
    rw [hstep]
    exact key _
  · intro t _ p _
    exact ramp t p

/-- Witness for C5's amended statement: Vasicek `a = 1/10`, `dt = 1/252`
(so `0 ≤ a*dt ≤ 2`), both models with `sigma = 0`. -/
theorem zero_vol_paths_witness :
    (∃ M, VasicekModel.simulate id ⟨1/10, 1/20, 0, 3/100, "euler"⟩ 1 (1/252)
          5 zeroStream = .ok M ∧
       ∀ t, t + 1 < M.rows → ∀ p < M.cols,
         |M.entry (t + 1) p - (1/20 : ℚ)| ≤ |M.entry t p - (1/20 : ℚ)|) ∧
    (∃ M, HoLeeModel.simulate id ⟨1/1000, 0, 3/100, "euler"⟩ 1 (1/252)
          5 zeroStream = .ok M ∧
       ∀ t < M.rows, ∀ p < M.cols,
         M.entry t p = 3/100 + (1/1000 : ℚ) * (t * (1/252))) :=
  zero_vol_paths id ⟨1/10, 1/20, 0, 3/100, "euler"⟩ ⟨1/1000, 0, 3/100, "euler"⟩
    1 (1/252) 5 zeroStream (by norm_num) (by norm_num) (by norm_num)
    rfl rfl (by norm_num) (by norm_num)

/-! ### C6: behaviour on non-positive horizon or step -/

/-- Branch lemma: step count `≤ -2` hits the `np.zeros` ValueError. -/
theorem vasicek_simulate_valueError (sqrtFn : ℚ → ℚ) (m : VasicekModel)
    (T dt : ℚ) (nPaths : ℕ) (g : ℕ → ℚ)
    (h0 : dt ≠ 0) (h1 : pyTrunc (T / dt) + 1 < 0) :
    m.simulate sqrtFn T dt nPaths g = .error .valueError := by
  simp only [VasicekModel.simulate, if_neg h0, if_pos h1]

/-- Branch lemma: step count `≤ -2` hits the `np.zeros` ValueError. -/
theorem holee_simulate_valueError (sqrtFn : ℚ → ℚ) (m : HoLeeModel)
    (T dt : ℚ) (nPaths : ℕ) (g : ℕ → ℚ)
    (h0 : dt ≠ 0) (h1 : pyTrunc (T / dt) + 1 < 0) :
    m.simulate sqrtFn T dt nPaths g = .error .valueError := by
  simp only [HoLeeModel.simulate, if_neg h0, if_pos h1]

/-- Branch lemma: step count `-1` hits the `paths[0]` IndexError. -/
theorem vasicek_simulate_indexError (sqrtFn : ℚ → ℚ) (m : VasicekModel)
    (T dt : ℚ) (nPaths : ℕ) (g : ℕ → ℚ)
    (h0 : dt ≠ 0) (h1 : pyTrunc (T / dt) = -1) :
    m.simulate sqrtFn T dt nPaths g = .error .indexError := by
  simp only [VasicekModel.simulate, if_neg h0, h1]
  norm_num

/-- Branch lemma: step count `-1` hits the `paths[0]` IndexError. -/
theorem holee_simulate_indexError (sqrtFn : ℚ → ℚ) (m : HoLeeModel)
    (T dt : ℚ) (nPaths : ℕ) (g : ℕ → ℚ)
    (h0 : dt ≠ 0) (h1 : pyTrunc (T / dt) = -1) :
    m.simulate sqrtFn T dt nPaths g = .error .indexError := by
  simp only [HoLeeModel.simulate, if_neg h0, h1]
  norm_num

/-- Branch lemma: step count `0` yields the degenerate single-row matrix. -/
theorem vasicek_simulate_singleRow (sqrtFn : ℚ → ℚ) (m : VasicekModel)
    (T dt : ℚ) (nPaths : ℕ) (g : ℕ → ℚ)
    (h0 : dt ≠ 0) (h1 : pyTrunc (T / dt) = 0) :
    m.simulate sqrtFn T dt nPaths g
      = .ok ⟨1, nPaths, vasicekPath m dt (dWmat (sqrtFn dt) nPaths g)⟩ := by
  simp only [VasicekModel.simulate, if_neg h0, h1]
  norm_num

/-- Branch lemma: step count `0` yields the degenerate single-row matrix. -/
theorem holee_simulate_singleRow (sqrtFn : ℚ → ℚ) (m : HoLeeModel)
    (T dt : ℚ) (nPaths : ℕ) (g : ℕ → ℚ)
    (h0 : dt ≠ 0) (h1 : pyTrunc (T / dt) = 0) :
    m.simulate sqrtFn T dt nPaths g
      = .ok ⟨1, nPaths, holeePath m dt (dWmat (sqrtFn dt) nPaths g)⟩ := by
  simp only [HoLeeModel.simulate, if_neg h0, h1]
  norm_num

/-- The truncated step count at `T = -2`, `dt = 1` is `-2`. -/
theorem pyTrunc_neg_two : pyTrunc ((-2 : ℚ) / 1) = -2 := by
  unfold pyTrunc
  norm_num
  rw [show ((-2 : ℚ)) = -(2 : ℚ) by norm_num, Int.ceil_neg]
  norm_num

/-- C6 counterexample: `simulate` does raise for some inputs with `T ≤ 0`
or `dt ≤ 0`: at `dt = 0` the division `T / dt` raises ZeroDivisionError, and
at `T = -2, dt = 1` the step count is `-2`, so `np.zeros((-1, n_paths))`
raises ValueError — contradicting "does not raise an explicit error". -/
theorem simulate_degenerate_cex :
    mvEx.simulate id 1 0 5 zeroStream = .error .zeroDivisionError ∧
    mvEx.simulate id (-2) 1 5 zeroStream = .error .valueError ∧
    mhEx.simulate id 1 0 5 zeroStream = .error .zeroDivisionError ∧
    mhEx.simulate id (-2) 1 5 zeroStream = .error .valueError :=
  ⟨rfl,
   vasicek_simulate_valueError id mvEx (-2) 1 5 zeroStream (by norm_num)
     (by rw [pyTrunc_neg_two]; norm_num),
   rfl,
   holee_simulate_valueError id mhEx (-2) 1 5 zeroStream (by norm_num)
     (by rw [pyTrunc_neg_two]; norm_num)⟩

/-- C6 amended: on non-positive inputs, `simulate` (both models) raises
ZeroDivisionError when `dt = 0`; returns a degenerate single-row matrix
when the truncated step count `int(T/dt)` is `0` (which covers `T ≤ 0 < dt`
with `-dt < T`); raises IndexError when `int(T/dt) = -1`; and raises
ValueError when `int(T/dt) ≤ -2`.  Only the step-count-zero case matches
the claimed no-raise degenerate output. -/
theorem simulate_degenerate (sqrtFn : ℚ → ℚ) (mv : VasicekModel)
    (mh : HoLeeModel) (T dt : ℚ) (nPaths : ℕ) (g : ℕ → ℚ) :
    (dt = 0 →
       mv.simulate sqrtFn T dt nPaths g = .error .zeroDivisionError ∧
       mh.simulate sqrtFn T dt nPaths g = .error .zeroDivisionError) ∧
    (dt ≠ 0 → pyTrunc (T / dt) = 0 →
       (∃ M, mv.simulate sqrtFn T dt nPaths g = .ok M ∧
          M.rows = 1 ∧ M.cols = nPaths) ∧
       (∃ M, mh.simulate sqrtFn T dt nPaths g = .ok M ∧
          M.rows = 1 ∧ M.cols = nPaths)) ∧
    (dt ≠ 0 → pyTrunc (T / dt) = -1 →
       mv.simulate sqrtFn T dt nPaths g = .error .indexError ∧
       mh.simulate sqrtFn T dt nPaths g = .error .indexError) ∧
    (dt ≠ 0 → pyTrunc (T / dt) ≤ -2 →
       mv.simulate sqrtFn T dt nPaths g = .error .valueError ∧
       mh.simulate sqrtFn T dt nPaths g = .error .valueError) := by
  refine ⟨fun h0 => ?_, fun h0 h1 => ?_, fun h0 h1 => ?_, fun h0 h1 => ?_⟩
  · constructor <;> simp [VasicekModel.simulate, HoLeeModel.simulate, h0]
  · exact ⟨⟨_, vasicek_simulate_singleRow sqrtFn mv T dt nPaths g h0 h1, rfl, rfl⟩,
           ⟨_, holee_simulate_singleRow sqrtFn mh T dt nPaths g h0 h1, rfl, rfl⟩⟩
  · exact ⟨vasicek_simulate_indexError sqrtFn mv T dt nPaths g h0 h1,
           holee_simulate_indexError sqrtFn mh T dt nPaths g h0 h1⟩
  · exact ⟨vasicek_simulate_valueError sqrtFn mv T dt nPaths g h0 (by omega),
           holee_simulate_valueError sqrtFn mh T dt nPaths g h0 (by omega)⟩

/-- Witness for C6's amended statement: `T = -1/2`, `dt = 1` gives step
count `int(-1/2) = 0` and a single-row `(1, 5)` result. -/
theorem simulate_degenerate_witness :
    (∃ M, mvEx.simulate id (-1/2) 1 5 zeroStream = .ok M ∧
       M.rows = 1 ∧ M.cols = 5) ∧
    (∃ M, mhEx.simulate id (-1/2) 1 5 zeroStream = .ok M ∧
       M.rows = 1 ∧ M.cols = 5) :=
  (simulate_degenerate id mvEx mhEx (-1/2) 1 5 zeroStream).2.1
    (by norm_num) (by unfold pyTrunc; norm_num)

/-! ### C2: residual vectors -/

/-- `getD`-indexing of the per-transition `zipWith` over `r[:-1]` and
`r[1:]`: entry `i` pairs `r[i]` with `r[i+1]`. -/
theorem zipWith_pairs_getD (f : ℚ → ℚ → ℚ) (r : List ℚ) (i : ℕ)
    (h : i < r.length - 1) :
    (List.zipWith f r.dropLast r.tail).getD i 0
      = f (r.getD i 0) (r.getD (i + 1) 0) := by
  induction r generalizing i with
  | nil => simp at h
  | cons x xs ih =>
    cases xs with
    | nil => simp at h
    | cons y ys =>
      cases i with
      | zero => simp
      | succ j =>
        have hj : j < (y :: ys).length - 1 := by
          simp only [List.length_cons] at h ⊢
          omega
        simpa using ih j hj

/-- Length of the per-transition `zipWith`: one entry per adjacent pair. -/
theorem zipWith_pairs_length (f : ℚ → ℚ → ℚ) (r : List ℚ) :
    (List.zipWith f r.dropLast r.tail).length = r.length - 1 := by
  simp [List.length_zipWith]

/-- C2: for every candidate parameter vector `[a, b, sigma]`
(resp. `[theta, sigma]`), every observed series `r` and every `dt`, the
residual function returns a vector of length `len(r) - 1` whose entry `i`
is `(r[i+1] - r[i] - expected_change_i) / (sigma + 1e-6)`, with
`expected_change_i = a*(b - r[i])*dt` for Vasicek and `theta*dt` for
Ho-Lee. -/
theorem calibration_residuals (a b theta sigma : ℚ) (r : List ℚ) (dt : ℚ) :
    (∃ l, vasicek_calibration [a, b, sigma] r dt = some l ∧
       l.length = r.length - 1 ∧
       ∀ i < r.length - 1,
         l.getD i 0 = (r.getD (i + 1) 0 - r.getD i 0
           - a * (b - r.getD i 0) * dt) / (sigma + 1e-6)) ∧
    (∃ l, holee_calibration [theta, sigma] r dt = some l ∧
       l.length = r.length - 1 ∧
       ∀ i < r.length - 1,
         l.getD i 0 = (r.getD (i + 1) 0 - r.getD i 0
           - theta * dt) / (sigma + 1e-6)) := by
  refine ⟨⟨_, rfl, zipWith_pairs_length _ r, fun i hi => ?_⟩,
          ⟨_, rfl, zipWith_pairs_length _ r, fun i hi => ?_⟩⟩ <;>
    rw [zipWith_pairs_getD _ r i hi] <;> rfl

/-- Witness for C2 on the concrete series `[1, 4, 9]`. -/
theorem calibration_residuals_witness :
    (∃ l, vasicek_calibration [1, 2, 3] [1, 4, 9] (1/2) = some l ∧
       l.length = ([1, 4, 9] : List ℚ).length - 1 ∧
       ∀ i < ([1, 4, 9] : List ℚ).length - 1,
         l.getD i 0 = (([1, 4, 9] : List ℚ).getD (i + 1) 0
           - ([1, 4, 9] : List ℚ).getD i 0
           - 1 * (2 - ([1, 4, 9] : List ℚ).getD i 0) * (1/2)) / (3 + 1e-6)) ∧
    (∃ l, holee_calibration [1, 3] [1, 4, 9] (1/2) = some l ∧
       l.length = ([1, 4, 9] : List ℚ).length - 1 ∧
       ∀ i < ([1, 4, 9] : List ℚ).length - 1,
         l.getD i 0 = (([1, 4, 9] : List ℚ).getD (i + 1) 0
           - ([1, 4, 9] : List ℚ).getD i 0 - 1 * (1/2)) / (3 + 1e-6)) :=
  calibration_residuals 1 2 1 3 [1, 4, 9] (1/2)

/-! ### C7: the epsilon guard in the residual denominator -/

/-- C7 counterexample: the additive epsilon does not make a zero
denominator unreachable for every near-zero sigma: at the near-zero value
`sigma = -1e-6` the residual denominator `sigma + 1e-6` is exactly `0`, and
the residuals of both calibration functions divide by it. -/
theorem resDenom_cex :
    resDenom (-(1e-6)) = 0 ∧
    vasicek_calibration [0, 0, -(1e-6)] [0, 1] 1
      = some [(1 - 0 - 0 * (0 - 0) * 1) / resDenom (-(1e-6))] ∧
    holee_calibration [0, -(1e-6)] [0, 1] 1
      = some [(1 - 0 - 0 * 1) / resDenom (-(1e-6))] := by
  refine ⟨by norm_num [resDenom], rfl, rfl⟩

/-- C7 amended: for every candidate sigma other than exactly `-1e-6` — in
particular for sigma zero, positive, or negative on either side of
`-1e-6` — the residual denominator `sigma + 1e-6` is nonzero, and the
residual functions total (they return a value, never a raised failure),
for both models. -/
theorem resDenom_ne_zero (a b theta sigma : ℚ) (r : List ℚ) (dt : ℚ)
    (h : sigma ≠ -(1e-6)) :
    resDenom sigma ≠ 0 ∧
    (vasicek_calibration [a, b, sigma] r dt).isSome = true ∧
    (holee_calibration [theta, sigma] r dt).isSome = true := by
  refine ⟨fun h0 => h ?_, rfl, rfl⟩
  have : sigma + 1e-6 = 0 := h0
  linarith

/-- Witness for C7's amended statement at `sigma = 0`. -/
theorem resDenom_ne_zero_witness :
    resDenom 0 ≠ 0 ∧
    (vasicek_calibration [1, 2, 0] [1, 4, 9] (1/2)).isSome = true ∧
    (holee_calibration [1, 0] [1, 4, 9] (1/2)).isSome = true :=
  resDenom_ne_zero 1 2 1 0 [1, 4, 9] (1/2) (by norm_num)

/-! ### C8: determinism -/

/-- The Vasicek value at step `t` depends only on the increments of steps
`< t`. -/
theorem vasicekPath_congr (m : VasicekModel) (dt : ℚ) (dW1 dW2 : ℕ → ℕ → ℚ)
    (t p : ℕ) (h : ∀ s, s < t → dW1 s p = dW2 s p) :
    vasicekPath m dt dW1 t p = vasicekPath m dt dW2 t p := by
  induction t with
  | zero => rfl
  | succ n ih =>
    simp only [vasicekPath]
    rw [ih (fun s hs => h s (Nat.lt_succ_of_lt hs)), h n (Nat.lt_succ_self n)]

/-- The Ho-Lee value at step `t` depends only on the increments of steps
`< t`. -/
theorem holeePath_congr (m : HoLeeModel) (dt : ℚ) (dW1 dW2 : ℕ → ℕ → ℚ)
    (t p : ℕ) (h : ∀ s, s < t → dW1 s p = dW2 s p) :
    holeePath m dt dW1 t p = holeePath m dt dW2 t p := by
  induction t with
  | zero => rfl
  | succ n ih =>
    simp only [holeePath]
    rw [ih (fun s hs => h s (Nat.lt_succ_of_lt hs)), h n (Nat.lt_succ_self n)]

/-- C8: `simulate` is a deterministic function of its inputs and of the
`n_steps * n_paths` normal draws consumed from the generator: two calls with
identical parameters whose generator streams agree on those draws (as after
fixing the same seed) produce matrices that are identical in shape and in
every in-range entry.  For both models. -/
theorem simulate_deterministic (sqrtFn : ℚ → ℚ) (mv : VasicekModel)
    (mh : HoLeeModel) (T dt : ℚ) (nPaths : ℕ) (g1 g2 : ℕ → ℚ)
    (hT : 0 < T) (hdt : 0 < dt)
    (hagree : ∀ i < ⌊T / dt⌋.toNat * nPaths, g1 i = g2 i) :
    (∃ M N, mv.simulate sqrtFn T dt nPaths g1 = .ok M ∧
       mv.simulate sqrtFn T dt nPaths g2 = .ok N ∧ M.ObsEq N) ∧
    (∃ M N, mh.simulate sqrtFn T dt nPaths g1 = .ok M ∧
       mh.simulate sqrtFn T dt nPaths g2 = .ok N ∧ M.ObsEq N) := by
  have hidx : ∀ s p, p < nPaths → s + 1 ≤ ⌊T / dt⌋.toNat →
      s * nPaths + p < ⌊T / dt⌋.toNat * nPaths := by
    intro s p hp hs
    calc s * nPaths + p < (s + 1) * nPaths := by rw [Nat.succ_mul]; omega
      _ ≤ ⌊T / dt⌋.toNat * nPaths := Nat.mul_le_mul_right _ hs
  have hdW : ∀ t p, p < nPaths → t + 1 ≤ ⌊T / dt⌋.toNat + 1 →
      ∀ s, s < t → dWmat (sqrtFn dt) nPaths g1 s p
        = dWmat (sqrtFn dt) nPaths g2 s p := by
    intro t p hp ht s hs
    show sqrtFn dt * g1 (s * nPaths + p) = sqrtFn dt * g2 (s * nPaths + p)
    rw [hagree _ (hidx s p hp (by omega))]
  refine ⟨⟨_, _, vasicek_simulate_ok sqrtFn mv T dt nPaths g1 hdt hT.le,
            vasicek_simulate_ok sqrtFn mv T dt nPaths g2 hdt hT.le, rfl, rfl, ?_⟩,
          ⟨_, _, holee_simulate_ok sqrtFn mh T dt nPaths g1 hdt hT.le,
            holee_simulate_ok sqrtFn mh T dt nPaths g2 hdt hT.le, rfl, rfl, ?_⟩⟩
  · intro t ht p hp
    have ht' : t < ⌊T / dt⌋.toNat + 1 := ht
    have hp' : p < nPaths := hp
    exact vasicekPath_congr mv dt _ _ t p (hdW t p hp' (by omega))
  · intro t ht p hp
    have ht' : t < ⌊T / dt⌋.toNat + 1 := ht
    have hp' : p < nPaths := hp
    exact holeePath_congr mh dt _ _ t p (hdW t p hp' (by omega))

/-- Witness for C8 at the repository's own test inputs, with two streams
that agree (both all-zero) on every consumed draw. -/
theorem simulate_deterministic_witness :
    (∃ M N, mvEx.simulate id 1 (1/252) 5 zeroStream = .ok M ∧
       mvEx.simulate id 1 (1/252) 5 zeroStream = .ok N ∧ M.ObsEq N) ∧
    (∃ M N, mhEx.simulate id 1 (1/252) 5 zeroStream = .ok M ∧
       mhEx.simulate id 1 (1/252) 5 zeroStream = .ok N ∧ M.ObsEq N) :=
  simulate_deterministic id mvEx mhEx 1 (1/252) 5 zeroStream zeroStream
    (by norm_num) (by norm_num) (fun _ _ => rfl)

/-! ### C9: calibration entry points -/

/-- C9: `calibrate_vasicek` hands the solver the initial guess
`[a = 0.1, b = mean(rate_data), sigma = 0.01]` and returns its fitted
vector, of length 3 in the order `(a, b, sigma)` (the order in which
`vasicek_calibration` destructures the vector); `calibrate_holee` starts
from `[theta = 0.001, sigma = 0.01]` and returns a vector of length 2 in
the order `(theta, sigma)`.  `r0` appears in neither optimized vector. -/
theorem calibrate_initial_guess (ls : LSSolver) (rate_data : List ℚ)
    (dt : ℚ) (hls : SolverPreservesLength ls) :
    calibrate_vasicek ls rate_data dt
      = ls (fun params => vasicek_calibration params rate_data dt)
          [0.1, npMean rate_data, 0.01] ∧
    (calibrate_vasicek ls rate_data dt).length = 3 ∧
    calibrate_holee ls rate_data dt
      = ls (fun params => holee_calibration params rate_data dt)
          [0.001, 0.01] ∧
    (calibrate_holee ls rate_data dt).length = 2 := by
  refine ⟨rfl, ?_, rfl, ?_⟩
  · show (ls _ [0.1, npMean rate_data, 0.01]).length = 3
    rw [hls]
    rfl
  · show (ls _ [0.001, 0.01]).length = 2
    rw [hls]
    rfl

/-- A concrete solver satisfying the `least_squares` length contract: it
returns the initial guess unchanged. -/
def idSolver : LSSolver := fun _ x0 => x0

/-- Witness for C9 with the identity solver on the series `[1, 4, 9]`. -/
theorem calibrate_initial_guess_witness :
    calibrate_vasicek idSolver [1, 4, 9] (1/2)
      = idSolver (fun params => vasicek_calibration params [1, 4, 9] (1/2))
          [0.1, npMean [1, 4, 9], 0.01] ∧
    (calibrate_vasicek idSolver [1, 4, 9] (1/2)).length = 3 ∧
    calibrate_holee idSolver [1, 4, 9] (1/2)
      = idSolver (fun params => holee_calibration params [1, 4, 9] (1/2))
          [0.001, 0.01] ∧
    (calibrate_holee idSolver [1, 4, 9] (1/2)).length = 2 :=
  calibrate_initial_guess idSolver [1, 4, 9] (1/2) (fun _ _ => rfl)

/-! ### C10: the `scheme` argument is stored but never read -/

/-- The Vasicek stepping loop ignores the `scheme` field. -/
theorem vasicekPath_scheme (a b sigma r0 : ℚ) (s1 s2 : String) (dt : ℚ)
    (dW : ℕ → ℕ → ℚ) :
    vasicekPath ⟨a, b, sigma, r0, s1⟩ dt dW
      = vasicekPath ⟨a, b, sigma, r0, s2⟩ dt dW := by
  funext t p
  induction t with
  | zero => rfl
  | succ n ih =>
    simp only [vasicekPath]
    rw [ih]

/-- The Ho-Lee stepping loop ignores the `scheme` field. -/
theorem holeePath_scheme (theta sigma r0 : ℚ) (s1 s2 : String) (dt : ℚ)
    (dW : ℕ → ℕ → ℚ) :
    holeePath ⟨theta, sigma, r0, s1⟩ dt dW
      = holeePath ⟨theta, sigma, r0, s2⟩ dt dW := by
  funext t p
  induction t with
  | zero => rfl
  | succ n ih =>
    simp only [holeePath]
    rw [ih]

/-- C10: the constructors store the `scheme` argument verbatim (any string,
unvalidated), and `simulate` never reads it: two model records differing
only in `scheme`, run with identical `T`, `dt`, `n_paths` and the same
generator stream, return identical output — for both models. -/
theorem scheme_unused (sqrtFn : ℚ → ℚ) (a b sigma r0 theta : ℚ)
    (s1 s2 : String) (T dt : ℚ) (nPaths : ℕ) (g : ℕ → ℚ) :
    (VasicekModel.mk a b sigma r0 s1).scheme = s1 ∧
    VasicekModel.simulate sqrtFn ⟨a, b, sigma, r0, s1⟩ T dt nPaths g
      = VasicekModel.simulate sqrtFn ⟨a, b, sigma, r0, s2⟩ T dt nPaths g ∧
    (HoLeeModel.mk theta sigma r0 s1).scheme = s1 ∧
    HoLeeModel.simulate sqrtFn ⟨theta, sigma, r0, s1⟩ T dt nPaths g
      = HoLeeModel.simulate sqrtFn ⟨theta, sigma, r0, s2⟩ T dt nPaths g := by
  refine ⟨rfl, ?_, rfl, ?_⟩
  · simp only [VasicekModel.simulate]
    rw [vasicekPath_scheme a b sigma r0 s1 s2 dt (dWmat (sqrtFn dt) nPaths g)]
  · simp only [HoLeeModel.simulate]
    rw [holeePath_scheme theta sigma r0 s1 s2 dt (dWmat (sqrtFn dt) nPaths g)]
